import Mathlib

/- Shallow embedding of the streamer-analytics dashboard (dashboard.py):
   the tabular data model, the filter engine `apply_filters`, the
   `safe_slider` range setup, pagination of the filtered view, and the CSV
   export, together with proofs of the documented properties. -/

/-- A cell of the tabular Dataset: a string value, a numeric value, or a
missing entry (pandas NaN, produced when a document lacks the field). -/
inductive Cell where
  | str (s : String)
  | num (n : Int)
  | absent
  deriving DecidableEq

/-- One row of the Dataset, listed in the order of the column names. -/
abbrev Row := List Cell

/-- The in-memory table (a pandas DataFrame): column names plus rows. -/
structure Df where
  cols : List String
  rows : List Row
  deriving DecidableEq

/-- The filter dictionary built in `main`: the text search term, the two
categorical choices, and the optional numeric ranges (`none` models a key
that is absent from the dict). -/
structure Filters where
  search_term : String
  status_filter : String
  verification_filter : String
  viewer_range : Option (Int × Int)
  streaming_time_range : Option (Int × Int)
  deriving DecidableEq

/-- Column access `row[c]` for one row: the value under the first column
named `c`, or `absent` when no such column exists. -/
def getCell : List String → Row → String → Cell
  | [], _, _ => .absent
  | _ :: _, [], _ => .absent
  | c0 :: cs, v :: vs, c => if c0 = c then v else getCell cs vs c

/-- pandas `Series.astype(str)` on one cell: a missing entry (NaN)
stringifies to the literal string "nan". -/
def astypeStr : Cell → String
  | .str s => s
  | .num n => toString n
  | .absent => "nan"

/-- Lower-cased character list of a string (models `case=False`). -/
def lowerChars (s : String) : List Char := s.data.map Char.toLower

/-- Substring containment on character lists. -/
def containsSub (needle : List Char) : List Char → Bool
  | [] => needle.isEmpty
  | c :: t => needle.isPrefixOf (c :: t) || containsSub needle t

/-- Models `Series.str.contains(pat, case=False)` for a literal pattern:
case-insensitive substring containment. -/
def strContainsCI (hay pat : String) : Bool :=
  containsSub (lowerChars pat) (lowerChars hay)

/-- The four columns scanned by the text search (dashboard.py line 98). -/
def search_columns : List String := ["username", "game_name", "language", "twitter"]

/-- Text-search block of `apply_filters` (lines 96-103): a boolean OR mask
over those search columns that exist in the frame.  When none of the four
exists, the accumulated mask is still the Python scalar `False`, and
`filtered_df[False]` raises `KeyError`. -/
def searchStep (f : Filters) (df : Df) : Except String Df :=
  if f.search_term = "" then .ok df
  else if search_columns.filter (fun c => df.cols.contains c) = [] then
    .error "KeyError: False"
  else .ok ⟨df.cols, df.rows.filter (fun r =>
    (search_columns.filter (fun c => df.cols.contains c)).any (fun c =>
      strContainsCI (astypeStr (getCell df.cols r c)) f.search_term))⟩

/-- Status block of `apply_filters` (lines 105-107): an equality filter on
`is_live`; the column is read unconditionally, so a missing column raises
`KeyError`. -/
def statusStep (f : Filters) (df : Df) : Except String Df :=
  if f.status_filter = "All" then .ok df
  else if df.cols.contains "is_live" then
    .ok ⟨df.cols, df.rows.filter (fun r => getCell df.cols r "is_live" = Cell.str f.status_filter)⟩
  else .error "KeyError: is_live"

/-- Verification block of `apply_filters` (lines 109-111), same pattern on
`isVerified`. -/
def verificationStep (f : Filters) (df : Df) : Except String Df :=
  if f.verification_filter = "All" then .ok df
  else if df.cols.contains "isVerified" then
    .ok ⟨df.cols, df.rows.filter (fun r =>
      getCell df.cols r "isVerified" = Cell.str f.verification_filter)⟩
  else .error "KeyError: isVerified"

/-- Numeric value of a cell, when it has one. -/
def cellNum : Cell → Option Int
  | .num n => some n
  | _ => none

/-- Elementwise `lo <= value and value <= hi`; a comparison against NaN (an
absent cell) is false in pandas, as is one that yields no number. -/
def numInRange (c : Cell) (lo hi : Int) : Bool :=
  match cellNum c with
  | some v => decide (lo ≤ v) && decide (v ≤ hi)
  | none => false

/-- Viewer-range block of `apply_filters` (lines 113-118): applied only when
the key is in the dict and the column exists. -/
def viewerStep (f : Filters) (df : Df) : Except String Df :=
  match f.viewer_range with
  | some (lo, hi) =>
    if df.cols.contains "current_viewers" then
      .ok ⟨df.cols, df.rows.filter (fun r =>
        numInRange (getCell df.cols r "current_viewers") lo hi)⟩
    else .ok df
  | none => .ok df

/-- Streaming-time block of `apply_filters` (lines 120-125). -/
def streamingStep (f : Filters) (df : Df) : Except String Df :=
  match f.streaming_time_range with
  | some (lo, hi) =>
    if df.cols.contains "total_streaming_minutes" then
      .ok ⟨df.cols, df.rows.filter (fun r =>
        numInRange (getCell df.cols r "total_streaming_minutes") lo hi)⟩
    else .ok df
  | none => .ok df

/-- The whole of `apply_filters` (lines 92-127): copy the frame, then apply
the five predicate blocks in source order. -/
def applyFilters (df : Df) (f : Filters) : Except String Df :=
  (searchStep f df).bind (fun d1 =>
    (statusStep f d1).bind (fun d2 =>
      (verificationStep f d2).bind (fun d3 =>
        (viewerStep f d3).bind (fun d4 =>
          streamingStep f d4))))

/-- Drop the `viewer_range` key from the filter dict. -/
def eraseViewer (f : Filters) : Filters :=
  { f with viewer_range := none }

/-- Drop the `streaming_time_range` key from the filter dict. -/
def eraseStreaming (f : Filters) : Filters :=
  { f with streaming_time_range := none }

/-- Sample frame used by concrete witnesses. -/
def dfa : Df := ⟨["username"], [[Cell.str "alice"], [Cell.str "bob"]]⟩

/-- Sample filter dict used by concrete witnesses. -/
def fa : Filters := ⟨"ali", "All", "All", none, none⟩

/-- The result of `apply_filters dfa fa`. -/
def dfaFiltered : Df := ⟨["username"], [[Cell.str "alice"]]⟩

/-- Frame without any of the columns the predicates reference. -/
def dfOther : Df := ⟨["other"], [[Cell.str "x"]]⟩

/-- Filter dict exercising every predicate at once. -/
def fAll : Filters := ⟨"x", "Yes", "Yes", some (0, 10), some (0, 10)⟩

/-- Total pages (dashboard.py line 274): `(N - 1) // P + 1` when there are
records, and a single page when there are none. -/
def total_pages (total_records records_per_page : Nat) : Nat :=
  if total_records > 0 then (total_records - 1) / records_per_page + 1 else 1

/-- The page index the number_input widget can return: the widget constrains
it to the interval from 1 to total_pages (line 277). -/
def clampPage (requested tp : Nat) : Nat := max 1 (min requested tp)

/-- The displayed slice for a 1-based page (lines 278-280):
`iloc[start : min(start + P, N)]`. -/
def pageSlice (rows : List Row) (records_per_page page : Nat) : List Row :=
  let start_idx := (page - 1) * records_per_page
  let end_idx := min (start_idx + records_per_page) rows.length
  (rows.drop start_idx).take (end_idx - start_idx)

/-- The frame shown in the table (lines 276-283): the clamped page slice
when there is more than one page, the whole filtered frame otherwise. -/
def display_df (filtered_df : Df) (records_per_page page_input : Nat) : Df :=
  let tp := total_pages filtered_df.rows.length records_per_page
  if tp > 1 then
    ⟨filtered_df.cols, pageSlice filtered_df.rows records_per_page (clampPage page_input tp)⟩
  else filtered_df

/-- Does a cell count as NaN for `isna` purposes. -/
def isNa : Cell → Bool
  | .absent => true
  | _ => false

/-- The range slider widget: it returns the user's choice when that is an
ordered pair inside the bounds (the widget enforces this), and its default
value `(min_val, max_val)` otherwise. -/
def sliderWidget (min_val max_val : Int) (choice : Int × Int) : Int × Int :=
  if min_val ≤ choice.1 ∧ choice.1 ≤ choice.2 ∧ choice.2 ≤ max_val then choice
  else (min_val, max_val)

/-- Tail of `safe_slider` (lines 138-154) once the data bounds are known: a
degenerate bound (all values equal) is returned as a one-point range, an
inverted bound yields None (no constraint), and otherwise the slider widget
is shown. -/
def slider_of_bounds (min_val max_val : Int) (choice : Int × Int) : Option (Int × Int) :=
  if min_val = max_val then some (min_val, max_val)
  else if min_val ≥ max_val then none
  else some (sliderWidget min_val max_val choice)

/-- The whole of `safe_slider` (lines 129-154): None when the column holds
no data at all, else branch on the column's min and max. -/
def safe_slider (column_data : List Cell) (choice : Int × Int) : Option (Int × Int) :=
  if column_data.all (fun c => isNa c) then none
  else
    match column_data.filterMap cellNum with
    | [] => none
    | v :: vs => slider_of_bounds (vs.foldl min v) (vs.foldl max v) choice

/-- The values of one column of a frame. -/
def columnData (df : Df) (c : String) : List Cell :=
  df.rows.map (fun r => getCell df.cols r c)

/-- A filter dict holding only a viewer range. -/
def viewerOnly (vrange : Option (Int × Int)) : Filters :=
  ⟨"", "All", "All", vrange, none⟩

/-- Concrete frame with a viewer count column, used by witnesses. -/
def dfv : Df := ⟨["current_viewers"], [[Cell.num 3], [Cell.num 9]]⟩

/-- The caller's data frames as a store, with `apply_filters` acting on it.
Every pandas operation in apply_filters builds a new frame (`.copy()` on
line 94, boolean indexing in each block); none writes through an existing
reference, so the call only appends frames to the store. -/
def applyFiltersProg (heap : List Df) (r : Nat) (f : Filters) :
    Except String Df × List Df :=
  let df := heap.getD r ⟨[], []⟩
  let filtered_df := df
  let res := applyFilters filtered_df f
  (res, heap ++ filtered_df :: (match res with | .ok d => [d] | .error _ => []))

/-- Characters that force quoting under the standard minimal CSV escaping
used by `to_csv`. -/
def specialChar (c : Char) : Bool := c = ',' || c = '"' || c = '\n' || c = '\r'

/-- Double every quote inside a quoted field. -/
def dupQuotes : List Char → List Char
  | [] => []
  | c :: t => if c = '"' then c :: c :: dupQuotes t else c :: dupQuotes t

/-- Minimal quoting as pandas to_csv performs it: quote a field only when it
holds a separator, a quote or a line break, doubling inner quotes. -/
def escapeF (s : List Char) : List Char :=
  if s.any specialChar then '"' :: (dupQuotes s ++ ['"']) else s

/-- Join fields with a separator character. -/
def joinWith (sep : Char) : List (List Char) → List Char
  | [] => []
  | [x] => x
  | x :: y :: rest => x ++ sep :: joinWith sep (y :: rest)

/-- One serialized CSV line. -/
def lineChars (fields : List (List Char)) : List Char :=
  joinWith ',' (fields.map escapeF)

/-- Serialize a table, one line per row, each line ended by a newline. -/
def csvChars : List (List (List Char)) → List Char
  | [] => []
  | row :: rest => lineChars row ++ '\n' :: csvChars rest

/-- How to_csv renders one cell: strings verbatim, numbers in decimal, and
a missing entry (NaN) as the empty field. -/
def renderCell : Cell → String
  | .str s => s
  | .num n => toString n
  | .absent => ""

/-- The table written by `to_csv(index=False)`: the header row of column
names followed by the rendered records. -/
def dfTable (df : Df) : List (List (List Char)) :=
  (df.cols.map String.data) :: df.rows.map (fun r => r.map (fun c => (renderCell c).data))

/-- The serialization `filtered_df.to_csv(index=False)` of line 321. -/
def toCsv (df : Df) : String := ⟨csvChars (dfTable df)⟩

/-- The CSV export block of main (lines 319-327): it serializes the full
filtered frame; the paginated display frame is in scope but unused. -/
def exportArtifact (filtered_df _display : Df) : String := toCsv filtered_df

/-- Modelled from the spec: the repository contains no CSV reader, so the
round-trip property is stated against the standard comma-separated parsing
that the spec's "standard comma-separated escaping" refers to.  The parser
is a character automaton: `cur` is the current field (reversed), `row` the
finished fields of the current line (reversed), `acc` the finished rows
(reversed), `inQ` whether a quoted section is open and `postQ` whether a
quoted section has just closed. -/
structure PState where
  cur : List Char
  row : List (List Char)
  acc : List (List (List Char))
  inQ : Bool
  postQ : Bool
  deriving DecidableEq

/-- Initial parser state. -/
def pInit : PState := ⟨[], [], [], false, false⟩

/-- Finish the current field. -/
def pushField (st : PState) : PState :=
  { st with cur := [], row := st.cur.reverse :: st.row, postQ := false }

/-- Finish the current row. -/
def pushRow (st : PState) : PState :=
  { st with
      cur := [],
      row := [],
      acc := (st.cur.reverse :: st.row).reverse :: st.acc,
      postQ := false }

/-- One step of the CSV automaton. -/
def pStep (st : PState) (c : Char) : PState :=
  if st.inQ then
    if c = '"' then { st with inQ := false, postQ := true }
    else { st with cur := c :: st.cur }
  else if st.postQ then
    if c = '"' then { st with cur := c :: st.cur, inQ := true, postQ := false }
    else if c = ',' then pushField st
    else if c = '\n' then pushRow st
    else { st with cur := c :: st.cur, postQ := false }
  else
    if c = '"' && st.cur.isEmpty then { st with inQ := true }
    else if c = ',' then pushField st
    else if c = '\n' then pushRow st
    else { st with cur := c :: st.cur }

/-- Modelled from the spec: standard CSV parsing of a document into rows of
fields; None on an unterminated quote, flushing a dangling final row. -/
def csvParse (s : String) : Option (List (List (List Char))) :=
  let st := s.data.foldl pStep pInit
  if st.inQ then none
  else if st.cur = [] ∧ st.row = [] ∧ st.postQ = false then some st.acc.reverse
  else some (((st.cur.reverse :: st.row).reverse :: st.acc).reverse)

/-- Frame whose second cell is missing, for the export collision. -/
def dfAbsent : Df := ⟨["username", "game_name"], [[Cell.str "u", Cell.absent]]⟩

/-- Frame whose second cell is the empty string, for the export collision. -/
def dfEmptyStr : Df := ⟨["username", "game_name"], [[Cell.str "u", Cell.str ""]]⟩

/-- The derived hour columns appended to the displayed frame (lines
291-295). -/
def formattedCols (cols : List String) : List String :=
  (cols ++ (if cols.contains "total_streaming_minutes" then ["total_streaming_hours"] else []))
    ++ (if cols.contains "daily_streaming_minutes" then ["daily_streaming_hours"] else [])

/-- The display priority order (lines 298-300). -/
def priority_columns : List String :=
  ["username", "is_live", "current_viewers", "game_name", "language",
   "isVerified", "total_streaming_hours", "daily_streaming_hours",
   "followers_count", "twitter_verified"]

/-- The reordered column list used for the displayed table (lines 302-304):
the priority columns that exist, then the remaining columns. -/
def final_columns (cols : List String) : List String :=
  (priority_columns.filter (fun c => cols.contains c)) ++
    (cols.filter (fun c => !(priority_columns.filter (fun c2 => cols.contains c2)).contains c))

/-- First line of a document. -/
def headerLine (s : String) : String := ⟨s.data.takeWhile (fun c => c != '\n')⟩

/-- Column names joined by commas. -/
def commaJoined (names : List String) : String := ⟨joinWith ',' (names.map String.data)⟩

/-- Frame for the C7 counterexample: the original column order differs from
the display priority order. -/
def dfc7 : Df := ⟨["game_name", "username"], [[Cell.str "g", Cell.str "u"]]⟩

/- ---------------------------------------------------------------------- -/
/- Theorems. -/
/- ---------------------------------------------------------------------- -/

/-- Inversion for a successful bind in the Except monad. -/
theorem exceptBind_ok {x : Except String Df} {g : Df → Except String Df} {d : Df}
    (h : x.bind g = .ok d) : ∃ a, x = .ok a ∧ g a = .ok d := by
  cases x with
  | error e => simp [Except.bind] at h
  | ok a => exact ⟨a, rfl, h⟩

/-- Congruence for bind when the continuations agree on the ok value. -/
theorem bind_congr_step {x : Except String Df} {g g' : Df → Except String Df}
    (h : ∀ d, x = .ok d → g d = g' d) : x.bind g = x.bind g' := by
  cases x with
  | error e => rfl
  | ok a => exact h a rfl

/-- A successful search step keeps the columns and a sublist of the rows. -/
theorem searchStep_sub {f : Filters} {df d : Df} (h : searchStep f df = .ok d) :
    d.cols = df.cols ∧ d.rows.Sublist df.rows := by
  unfold searchStep at h
  split at h
  · cases h; exact ⟨rfl, List.Sublist.refl _⟩
  · split at h
    · simp at h
    · cases h; exact ⟨rfl, List.filter_sublist _⟩

/-- A successful status step keeps the columns and a sublist of the rows. -/
theorem statusStep_sub {f : Filters} {df d : Df} (h : statusStep f df = .ok d) :
    d.cols = df.cols ∧ d.rows.Sublist df.rows := by
  unfold statusStep at h
  split at h
  · cases h; exact ⟨rfl, List.Sublist.refl _⟩
  · split at h
    · cases h; exact ⟨rfl, List.filter_sublist _⟩
    · simp at h

/-- A successful verification step keeps the columns and a sublist of rows. -/
theorem verificationStep_sub {f : Filters} {df d : Df}
    (h : verificationStep f df = .ok d) :
    d.cols = df.cols ∧ d.rows.Sublist df.rows := by
  unfold verificationStep at h
  split at h
  · cases h; exact ⟨rfl, List.Sublist.refl _⟩
  · split at h
    · cases h; exact ⟨rfl, List.filter_sublist _⟩
    · simp at h

/-- The viewer-range step keeps the columns and a sublist of the rows. -/
theorem viewerStep_sub {f : Filters} {df d : Df} (h : viewerStep f df = .ok d) :
    d.cols = df.cols ∧ d.rows.Sublist df.rows := by
  unfold viewerStep at h
  split at h
  · split at h
    · cases h; exact ⟨rfl, List.filter_sublist _⟩
    · cases h; exact ⟨rfl, List.Sublist.refl _⟩
  · cases h; exact ⟨rfl, List.Sublist.refl _⟩

/-- The streaming-range step keeps the columns and a sublist of the rows. -/
theorem streamingStep_sub {f : Filters} {df d : Df} (h : streamingStep f df = .ok d) :
    d.cols = df.cols ∧ d.rows.Sublist df.rows := by
  unfold streamingStep at h
  split at h
  · split at h
    · cases h; exact ⟨rfl, List.filter_sublist _⟩
    · cases h; exact ⟨rfl, List.Sublist.refl _⟩
  · cases h; exact ⟨rfl, List.Sublist.refl _⟩

/-- A successful run of apply_filters decomposes into its five blocks. -/
theorem applyFilters_ok_chain {df : Df} {f : Filters} {d : Df}
    (h : applyFilters df f = .ok d) :
    ∃ d1 d2 d3 d4, searchStep f df = .ok d1 ∧ statusStep f d1 = .ok d2 ∧
      verificationStep f d2 = .ok d3 ∧ viewerStep f d3 = .ok d4 ∧
      streamingStep f d4 = .ok d := by
  obtain ⟨d1, h1, h⟩ := exceptBind_ok h
  obtain ⟨d2, h2, h⟩ := exceptBind_ok h
  obtain ⟨d3, h3, h⟩ := exceptBind_ok h
  obtain ⟨d4, h4, h5⟩ := exceptBind_ok h
  exact ⟨d1, d2, d3, d4, h1, h2, h3, h4, h5⟩

/-- A successful apply_filters keeps the columns and a sublist of the rows. -/
theorem applyFilters_sub {df : Df} {f : Filters} {d : Df}
    (h : applyFilters df f = .ok d) :
    d.cols = df.cols ∧ d.rows.Sublist df.rows := by
  obtain ⟨d1, d2, d3, d4, h1, h2, h3, h4, h5⟩ := applyFilters_ok_chain h
  obtain ⟨c1, s1⟩ := searchStep_sub h1
  obtain ⟨c2, s2⟩ := statusStep_sub h2
  obtain ⟨c3, s3⟩ := verificationStep_sub h3
  obtain ⟨c4, s4⟩ := viewerStep_sub h4
  obtain ⟨c5, s5⟩ := streamingStep_sub h5
  exact ⟨by rw [c5, c4, c3, c2, c1],
    ((((s5.trans s4).trans s3).trans s2).trans s1)⟩

/-- Rows that already survived the search keep surviving it. -/
theorem searchStep_stable {f : Filters} {df d : Df} (h : searchStep f df = .ok d)
    (dB : Df) (hc : dB.cols = df.cols) (hm : ∀ r ∈ dB.rows, r ∈ d.rows) :
    searchStep f dB = .ok dB := by
  obtain ⟨cB, rB⟩ := dB
  obtain rfl : cB = df.cols := hc
  unfold searchStep at h ⊢
  split at h
  next hterm =>
    cases h
    rw [if_pos hterm]
  next hterm =>
    rw [if_neg hterm]
    split at h
    next hp => simp at h
    next hp =>
      cases h
      rw [if_neg hp]
      have hfix : ∀ r ∈ rB, (search_columns.filter (fun c => df.cols.contains c)).any
          (fun c => strContainsCI (astypeStr (getCell df.cols r c)) f.search_term) = true :=
        fun r hr => (List.mem_filter.1 (hm r hr)).2
      simp only [Except.ok.injEq, Df.mk.injEq]
      exact ⟨trivial, List.filter_eq_self.mpr hfix⟩

/-- Rows that already survived the status filter keep surviving it. -/
theorem statusStep_stable {f : Filters} {df d : Df} (h : statusStep f df = .ok d)
    (dB : Df) (hc : dB.cols = df.cols) (hm : ∀ r ∈ dB.rows, r ∈ d.rows) :
    statusStep f dB = .ok dB := by
  obtain ⟨cB, rB⟩ := dB
  obtain rfl : cB = df.cols := hc
  unfold statusStep at h ⊢
  split at h
  next hAll =>
    cases h
    rw [if_pos hAll]
  next hAll =>
    rw [if_neg hAll]
    split at h
    next hcol =>
      cases h
      rw [if_pos hcol]
      simp only [Except.ok.injEq, Df.mk.injEq]
      exact ⟨trivial, List.filter_eq_self.mpr fun r hr => (List.mem_filter.1 (hm r hr)).2⟩
    next hcol => simp at h

/-- Rows that already survived the verification filter keep surviving it. -/
theorem verificationStep_stable {f : Filters} {df d : Df}
    (h : verificationStep f df = .ok d)
    (dB : Df) (hc : dB.cols = df.cols) (hm : ∀ r ∈ dB.rows, r ∈ d.rows) :
    verificationStep f dB = .ok dB := by
  obtain ⟨cB, rB⟩ := dB
  obtain rfl : cB = df.cols := hc
  unfold verificationStep at h ⊢
  split at h
  next hAll =>
    cases h
    rw [if_pos hAll]
  next hAll =>
    rw [if_neg hAll]
    split at h
    next hcol =>
      cases h
      rw [if_pos hcol]
      simp only [Except.ok.injEq, Df.mk.injEq]
      exact ⟨trivial, List.filter_eq_self.mpr fun r hr => (List.mem_filter.1 (hm r hr)).2⟩
    next hcol => simp at h

/-- Rows that already survived the viewer range keep surviving it. -/
theorem viewerStep_stable {f : Filters} {df d : Df} (h : viewerStep f df = .ok d)
    (dB : Df) (hc : dB.cols = df.cols) (hm : ∀ r ∈ dB.rows, r ∈ d.rows) :
    viewerStep f dB = .ok dB := by
  obtain ⟨cB, rB⟩ := dB
  obtain rfl : cB = df.cols := hc
  unfold viewerStep at h ⊢
  split at h
  next lo hi hv =>
    split at h
    next hcol =>
      cases h
      dsimp only
      rw [if_pos hcol]
      simp only [Except.ok.injEq, Df.mk.injEq]
      exact ⟨trivial, List.filter_eq_self.mpr fun r hr => (List.mem_filter.1 (hm r hr)).2⟩
    next hcol =>
      cases h
      dsimp only
      rw [if_neg hcol]
  next hv =>
    cases h
    rfl

/-- Rows that already survived the streaming range keep surviving it. -/
theorem streamingStep_stable {f : Filters} {df d : Df} (h : streamingStep f df = .ok d)
    (dB : Df) (hc : dB.cols = df.cols) (hm : ∀ r ∈ dB.rows, r ∈ d.rows) :
    streamingStep f dB = .ok dB := by
  obtain ⟨cB, rB⟩ := dB
  obtain rfl : cB = df.cols := hc
  unfold streamingStep at h ⊢
  split at h
  next lo hi hv =>
    split at h
    next hcol =>
      cases h
      dsimp only
      rw [if_pos hcol]
      simp only [Except.ok.injEq, Df.mk.injEq]
      exact ⟨trivial, List.filter_eq_self.mpr fun r hr => (List.mem_filter.1 (hm r hr)).2⟩
    next hcol =>
      cases h
      dsimp only
      rw [if_neg hcol]
  next hv =>
    cases h
    rfl

/-- C1 (code bug).  The code stringifies every search cell with
`astype(str)` before the `contains` check, so a missing value becomes the
string "nan" and the `na=False` flag never sees a missing entry: on a frame
whose second record lacks `game_name`, the search term "nan" keeps exactly
that record, although the claim says an absent value never matches and no
present value here contains "nan" either, so the result ought to be empty. -/
theorem search_counts_missing_as_nan_string :
    applyFilters
      ⟨["username", "game_name"],
        [[Cell.str "ann", Cell.str "Chess"], [Cell.str "bob", Cell.absent]]⟩
      ⟨"nan", "All", "All", none, none⟩ =
    .ok ⟨["username", "game_name"], [[Cell.str "bob", Cell.absent]]⟩ := by
  rfl

/-- C3.  Whenever apply_filters returns a frame, that frame has the same
columns and its rows form a subsequence of the input rows: every output
record occurs in the input, no record occurs more often than it did, and
the relative order is preserved. -/
theorem apply_filters_subsequence (df : Df) (f : Filters) (d : Df)
    (h : applyFilters df f = .ok d) :
    d.cols = df.cols ∧ d.rows.Sublist df.rows ∧
      ∀ r : Row, d.rows.count r ≤ df.rows.count r := by
  obtain ⟨hc, hs⟩ := applyFilters_sub h
  exact ⟨hc, hs, fun r => hs.count_le r⟩

/-- Witness for C3 at a concrete frame and filter. -/
theorem apply_filters_subsequence_witness :
    dfaFiltered.cols = dfa.cols ∧ dfaFiltered.rows.Sublist dfa.rows :=
  ⟨(apply_filters_subsequence dfa fa dfaFiltered (by rfl)).1,
   (apply_filters_subsequence dfa fa dfaFiltered (by rfl)).2.1⟩

/-- C9.  Filtering is idempotent: when apply_filters succeeds, running it
again on its own output with the same filter dict returns the output
unchanged. -/
theorem apply_filters_idempotent (df : Df) (f : Filters) (d : Df)
    (h : applyFilters df f = .ok d) : applyFilters d f = .ok d := by
  obtain ⟨d1, d2, d3, d4, h1, h2, h3, h4, h5⟩ := applyFilters_ok_chain h
  obtain ⟨c1, s1⟩ := searchStep_sub h1
  obtain ⟨c2, s2⟩ := statusStep_sub h2
  obtain ⟨c3, s3⟩ := verificationStep_sub h3
  obtain ⟨c4, s4⟩ := viewerStep_sub h4
  obtain ⟨c5, s5⟩ := streamingStep_sub h5
  have t1 : searchStep f d = .ok d :=
    searchStep_stable h1 d (by rw [c5, c4, c3, c2]; exact c1)
      (fun r hr => ((((s5.trans s4).trans s3).trans s2).subset) hr)
  have t2 : statusStep f d = .ok d :=
    statusStep_stable h2 d (by rw [c5, c4, c3]; exact c2)
      (fun r hr => (((s5.trans s4).trans s3).subset) hr)
  have t3 : verificationStep f d = .ok d :=
    verificationStep_stable h3 d (by rw [c5, c4]; exact c3)
      (fun r hr => ((s5.trans s4).subset) hr)
  have t4 : viewerStep f d = .ok d :=
    viewerStep_stable h4 d (by rw [c5]; exact c4)
      (fun r hr => (s5.subset) hr)
  have t5 : streamingStep f d = .ok d :=
    streamingStep_stable h5 d c5 (fun r hr => hr)
  simp only [applyFilters, t1, Except.bind, t2, t3, t4, t5]

/-- Witness for C9 at a concrete frame and filter. -/
theorem apply_filters_idempotent_witness :
    applyFilters dfaFiltered fa = .ok dfaFiltered :=
  apply_filters_idempotent dfa fa dfaFiltered (by rfl)

/-- The viewer range is skipped when the column is missing. -/
theorem viewerStep_absent {f : Filters} {df : Df}
    (h : df.cols.contains "current_viewers" = false) : viewerStep f df = .ok df := by
  unfold viewerStep
  split
  · rw [if_neg (by simp_all)]
  · rfl

/-- The viewer range is skipped when the key is not in the dict. -/
theorem viewerStep_noKey {f : Filters} {df : Df}
    (h : f.viewer_range = none) : viewerStep f df = .ok df := by
  unfold viewerStep
  split
  next lo hi hv => rw [h] at hv; cases hv
  next => rfl

/-- The streaming range is skipped when the column is missing. -/
theorem streamingStep_absent {f : Filters} {df : Df}
    (h : df.cols.contains "total_streaming_minutes" = false) :
    streamingStep f df = .ok df := by
  unfold streamingStep
  split
  · rw [if_neg (by simp_all)]
  · rfl

/-- The streaming range is skipped when the key is not in the dict. -/
theorem streamingStep_noKey {f : Filters} {df : Df}
    (h : f.streaming_time_range = none) : streamingStep f df = .ok df := by
  unfold streamingStep
  split
  next lo hi hv => rw [h] at hv; cases hv
  next => rfl

/-- C2 counterexample.  A status choice other than "All" on a frame lacking
the `is_live` column makes apply_filters raise a KeyError instead of
skipping the predicate, refuting the claim that no exception leaves
apply_filters in that situation. -/
theorem status_filter_missing_column_raises :
    applyFilters ⟨["username"], [[Cell.str "alice"]]⟩
      ⟨"", "Yes", "All", none, none⟩ = .error "KeyError: is_live" := by
  rfl

/-- C2 as amended.  A numeric-range predicate whose column is absent is
skipped entirely (the output is as if the range key had not been supplied),
but the categorical predicates are not guarded: a status or verification
choice other than "All" on a frame lacking the corresponding column raises
a KeyError, and a non-empty search term on a frame lacking all four search
columns raises as well. -/
theorem absent_column_handling (df : Df) (f : Filters) :
    (df.cols.contains "current_viewers" = false →
      applyFilters df f = applyFilters df (eraseViewer f)) ∧
    (df.cols.contains "total_streaming_minutes" = false →
      applyFilters df f = applyFilters df (eraseStreaming f)) ∧
    (f.status_filter ≠ "All" → df.cols.contains "is_live" = false →
      ∃ e, applyFilters df f = .error e) ∧
    (f.verification_filter ≠ "All" → df.cols.contains "isVerified" = false →
      ∃ e, applyFilters df f = .error e) ∧
    (f.search_term ≠ "" → (∀ c ∈ search_columns, df.cols.contains c = false) →
      applyFilters df f = .error "KeyError: False") := by
  refine ⟨?_, ?_, ?_, ?_, ?_⟩
  · intro hcv
    unfold applyFilters
    rw [show searchStep (eraseViewer f) df = searchStep f df from rfl]
    refine bind_congr_step (fun d1 h1 => ?_)
    have hc1 := (searchStep_sub h1).1
    rw [show statusStep (eraseViewer f) d1 = statusStep f d1 from rfl]
    refine bind_congr_step (fun d2 h2 => ?_)
    have hc2 := (statusStep_sub h2).1
    rw [show verificationStep (eraseViewer f) d2 = verificationStep f d2 from rfl]
    refine bind_congr_step (fun d3 h3 => ?_)
    have hc3 := (verificationStep_sub h3).1
    have hv1 : viewerStep f d3 = .ok d3 := viewerStep_absent (by rw [hc3, hc2, hc1]; exact hcv)
    have hv2 : viewerStep (eraseViewer f) d3 = .ok d3 := viewerStep_noKey rfl
    rw [hv1, hv2]
    rfl
  · intro hsm
    unfold applyFilters
    rw [show searchStep (eraseStreaming f) df = searchStep f df from rfl]
    refine bind_congr_step (fun d1 h1 => ?_)
    have hc1 := (searchStep_sub h1).1
    rw [show statusStep (eraseStreaming f) d1 = statusStep f d1 from rfl]
    refine bind_congr_step (fun d2 h2 => ?_)
    have hc2 := (statusStep_sub h2).1
    rw [show verificationStep (eraseStreaming f) d2 = verificationStep f d2 from rfl]
    refine bind_congr_step (fun d3 h3 => ?_)
    have hc3 := (verificationStep_sub h3).1
    rw [show viewerStep (eraseStreaming f) d3 = viewerStep f d3 from rfl]
    refine bind_congr_step (fun d4 h4 => ?_)
    have hc4 := (viewerStep_sub h4).1
    rw [streamingStep_absent (by rw [hc4, hc3, hc2, hc1]; exact hsm),
      streamingStep_noKey (show (eraseStreaming f).streaming_time_range = none from rfl)]
  · intro hAll hcol
    unfold applyFilters
    cases hsr : searchStep f df with
    | error e => exact ⟨e, rfl⟩
    | ok d1 =>
      have hc1 := (searchStep_sub hsr).1
      have hst : statusStep f d1 = .error "KeyError: is_live" := by
        unfold statusStep
        rw [if_neg hAll, if_neg (by rw [hc1, hcol]; simp)]
      refine ⟨"KeyError: is_live", ?_⟩
      simp only [Except.bind, hst]
  · intro hAll hcol
    unfold applyFilters
    cases hsr : searchStep f df with
    | error e => exact ⟨e, rfl⟩
    | ok d1 =>
      have hc1 := (searchStep_sub hsr).1
      cases hss : statusStep f d1 with
      | error e => exact ⟨e, by simp only [Except.bind, hss]⟩
      | ok d2 =>
        have hc2 := (statusStep_sub hss).1
        have hvr : verificationStep f d2 = .error "KeyError: isVerified" := by
          unfold verificationStep
          rw [if_neg hAll, if_neg (by rw [hc2, hc1, hcol]; simp)]
        refine ⟨"KeyError: isVerified", ?_⟩
        simp only [Except.bind, hss, hvr]
  · intro hterm hall
    have hpres : search_columns.filter (fun c => df.cols.contains c) = [] :=
      List.filter_eq_nil_iff.mpr (fun c hc => by have := hall c hc; simp_all)
    unfold applyFilters searchStep
    rw [if_neg hterm, if_pos hpres]
    rfl

/-- Witness for C2 at a concrete frame and filter dict. -/
theorem absent_column_handling_witness :
    applyFilters dfOther fAll = applyFilters dfOther (eraseViewer fAll) ∧
      applyFilters dfOther fAll = applyFilters dfOther (eraseStreaming fAll) ∧
      (∃ e, applyFilters dfOther fAll = .error e) ∧
      applyFilters dfOther fAll = .error "KeyError: False" :=
  ⟨(absent_column_handling dfOther fAll).1 (by rfl),
   (absent_column_handling dfOther fAll).2.1 (by rfl),
   (absent_column_handling dfOther fAll).2.2.1 (by decide) (by rfl),
   (absent_column_handling dfOther fAll).2.2.2.2 (by decide) (by decide)⟩

/-- Total pages is never zero. -/
theorem one_le_total_pages (N P : Nat) : 1 ≤ total_pages N P := by
  unfold total_pages
  split
  · exact Nat.succ_le_succ (Nat.zero_le _)
  · exact le_refl 1

/-- Joining the first k chunks of size P recovers the first k * P elements. -/
theorem pagesJoin (P : Nat) (rows : List Row) (k : Nat) :
    ((List.range k).map (fun i => (rows.drop (i * P)).take P)).flatten = rows.take (k * P) := by
  induction k with
  | zero => simp
  | succ k ih =>
    rw [List.range_succ, List.map_append, List.flatten_append, ih]
    simp only [List.map_cons, List.map_nil, List.flatten_cons, List.flatten_nil, List.append_nil]
    rw [← List.take_add, Nat.succ_mul]

/-- The 1-based page slice is a plain chunk of size P. -/
theorem pageSlice_take (rows : List Row) (P i : Nat) :
    pageSlice rows P (i + 1) = (rows.drop (i * P)).take P := by
  simp only [pageSlice, Nat.add_sub_cancel]
  rw [List.take_eq_take]
  simp only [List.length_drop]
  omega

/-- The pages of the filtered view cover it exactly once. -/
theorem pages_cover (rows : List Row) (P : Nat) (hP : 0 < P) :
    ((List.range (total_pages rows.length P)).map
      (fun i => pageSlice rows P (i + 1))).flatten = rows := by
  have hlen : rows.length ≤ total_pages rows.length P * P := by
    unfold total_pages
    split
    next hpos =>
      have hd := Nat.div_add_mod (rows.length - 1) P
      have hm := Nat.mod_lt (rows.length - 1) hP
      have hcomm : ((rows.length - 1) / P + 1) * P = P * ((rows.length - 1) / P) + P := by
        ring
      rw [hcomm]
      omega
    next hpos => omega
  simp only [pageSlice_take]
  rw [pagesJoin]
  exact List.take_of_length_le hlen

/-- C4.  Pagination of the filtered view: total pages is the ceiling of
N / P with a floor of one page, the requested page index is clamped to the
interval from 1 to total_pages, page p shows the slice from (p-1)*P up to
min(p*P, N), and concatenating the slices of all pages reproduces the
filtered rows exactly once. -/
theorem pagination_spec (rows : List Row) (P : Nat) (hP : 0 < P) :
    total_pages 0 P = 1 ∧ total_pages 101 50 = 3 ∧
    (∀ N : Nat, total_pages N P = max 1 ((N + P - 1) / P)) ∧
    (∀ q : Nat, 1 ≤ clampPage q (total_pages rows.length P) ∧
      clampPage q (total_pages rows.length P) ≤ total_pages rows.length P) ∧
    (∀ p : Nat, 1 ≤ p →
      pageSlice rows P p =
        (rows.drop ((p - 1) * P)).take (min (p * P) rows.length - (p - 1) * P)) ∧
    ((List.range (total_pages rows.length P)).map
      (fun i => pageSlice rows P (i + 1))).flatten = rows := by
  refine ⟨rfl, by decide, ?_, ?_, ?_, pages_cover rows P hP⟩
  · intro N
    unfold total_pages
    by_cases hN : N > 0
    · rw [if_pos hN]
      have hrw : N + P - 1 = (N - 1) + P := by omega
      rw [hrw, Nat.add_div_right _ hP]
      exact (max_eq_right (Nat.succ_le_succ (Nat.zero_le _))).symm
    · rw [if_neg hN]
      have hN0 : N = 0 := by omega
      subst hN0
      have hrw : 0 + P - 1 = P - 1 := by omega
      rw [hrw, Nat.div_eq_of_lt (by omega)]
      exact (max_eq_left (Nat.zero_le 1)).symm
  · intro q
    have htp := one_le_total_pages rows.length P
    exact ⟨le_max_left _ _, max_le htp (min_le_right _ _)⟩
  · intro p hp
    simp only [pageSlice]
    have hle : P ≤ p * P := Nat.le_mul_of_pos_left P hp
    have hs : (p - 1) * P + P = p * P := by
      rw [Nat.sub_mul, one_mul]
      omega
    rw [hs]

/-- Witness for C4 at a concrete page size and row list. -/
theorem pagination_spec_witness :
    total_pages 0 50 = 1 ∧ total_pages 101 50 = 3 ∧
      ((List.range (total_pages dfa.rows.length 50)).map
        (fun i => pageSlice dfa.rows 50 (i + 1))).flatten = dfa.rows :=
  ⟨(pagination_spec dfa.rows 50 (by decide)).1,
   (pagination_spec dfa.rows 50 (by decide)).2.1,
   (pagination_spec dfa.rows 50 (by decide)).2.2.2.2.2⟩

/-- A bound produced by the slider tail is always ordered. -/
theorem slider_of_bounds_le {mn mx : Int} {choice : Int × Int} {lo hi : Int}
    (h : slider_of_bounds mn mx choice = some (lo, hi)) : lo ≤ hi := by
  unfold slider_of_bounds at h
  split at h
  next heq =>
    injection h with h'
    cases h'
    exact le_of_eq heq
  next hne =>
    split at h
    next => cases h
    next hge =>
      injection h with h'
      unfold sliderWidget at h'
      split at h'
      next hcond =>
        cases h'
        exact hcond.2.1
      next =>
        cases h'
        omega

/-- A bound produced by safe_slider is always ordered. -/
theorem safe_slider_le {data : List Cell} {choice : Int × Int} {lo hi : Int}
    (h : safe_slider data choice = some (lo, hi)) : lo ≤ hi := by
  unfold safe_slider at h
  split at h
  · cases h
  · split at h
    · cases h
    · exact slider_of_bounds_le h

/-- C5.  A bound supplied through safe_slider (degenerate or distinct) is an
ordered pair, and applying it keeps exactly the records whose column value
lies inside the closed interval; an inverted bound (min greater than max)
or a column with no data produces None, and a missing range key leaves the
frame untouched, rather than excluding everything. -/
theorem numeric_range_spec (data : List Cell) (choice : Int × Int) (lo hi : Int) (df : Df) :
    (safe_slider data choice = some (lo, hi) →
      lo ≤ hi ∧
      (df.cols.contains "current_viewers" = true →
        ∃ d, viewerStep (viewerOnly (some (lo, hi))) df = .ok d ∧ d.cols = df.cols ∧
          ∀ r : Row, r ∈ d.rows ↔ r ∈ df.rows ∧
            numInRange (getCell df.cols r "current_viewers") lo hi = true)) ∧
    (∀ mn mx : Int, mn > mx → slider_of_bounds mn mx choice = none) ∧
    (data.all (fun c => isNa c) = true → safe_slider data choice = none) ∧
    (∀ f : Filters, f.viewer_range = none → viewerStep f df = .ok df) := by
  refine ⟨?_, ?_, ?_, fun f hf => viewerStep_noKey hf⟩
  · intro h
    refine ⟨safe_slider_le h, ?_⟩
    intro hcv
    refine ⟨⟨df.cols, df.rows.filter (fun r =>
      numInRange (getCell df.cols r "current_viewers") lo hi)⟩, ?_, rfl, ?_⟩
    · show viewerStep (viewerOnly (some (lo, hi))) df = _
      unfold viewerStep viewerOnly
      dsimp only
      rw [if_pos hcv]
    · intro r
      simp [List.mem_filter]
  · intro mn mx hgt
    unfold slider_of_bounds
    rw [if_neg (by omega), if_pos (by omega)]
  · intro hna
    unfold safe_slider
    rw [if_pos hna]

/-- Witness for C5 at concrete data, bounds and frames. -/
theorem numeric_range_spec_witness :
    (2 : Int) ≤ 4 ∧
      (∃ d, viewerStep (viewerOnly (some (2, 4))) dfv = .ok d) ∧
      slider_of_bounds 100 50 (2, 4) = none ∧
      safe_slider [Cell.absent] (0, 0) = none ∧
      viewerStep (viewerOnly none) dfa = .ok dfa := by
  have h1 := (numeric_range_spec [Cell.num 1, Cell.num 5] (2, 4) 2 4 dfv).1 (by rfl)
  obtain ⟨hle, h2⟩ := h1
  obtain ⟨d, hd, -, -⟩ := h2 (by rfl)
  exact ⟨hle, ⟨d, hd⟩,
    (numeric_range_spec [Cell.num 1, Cell.num 5] (2, 4) 2 4 dfv).2.1 100 50 (by decide),
    (numeric_range_spec [Cell.absent] (0, 0) 2 4 dfv).2.2.1 (by rfl),
    (numeric_range_spec [Cell.num 1] (0, 0) 2 4 dfa).2.2.2 (viewerOnly none) (by rfl)⟩

/-- C10.  apply_filters operates on a copy of the caller's frame: it only
reads the store slot it is given and appends fresh frames, so after the
call the original slot still holds exactly the records and values it held
before, and the returned result is apply_filters of that original frame. -/
theorem apply_filters_preserves_input (heap : List Df) (r : Nat) (f : Filters)
    (h : r < heap.length) :
    ((applyFiltersProg heap r f).2)[r]? = heap[r]? ∧
      (applyFiltersProg heap r f).1 = applyFilters (heap.getD r ⟨[], []⟩) f := by
  refine ⟨?_, rfl⟩
  show (heap ++ _)[r]? = heap[r]?
  rw [List.getElem?_append, if_pos h]

/-- Witness for C10 at a concrete store. -/
theorem apply_filters_preserves_input_witness :
    ((applyFiltersProg [dfa] 0 fa).2)[0]? = [dfa][0]? ∧
      (applyFiltersProg [dfa] 0 fa).1 = applyFilters ([dfa].getD 0 ⟨[], []⟩) fa :=
  apply_filters_preserves_input [dfa] 0 fa (by decide)

/-- A comma steps the automaton to a finished field outside quotes. -/
theorem pStep_comma (st : PState) (h1 : st.inQ = false) : pStep st ',' = pushField st := by
  unfold pStep
  rw [if_neg (by rw [h1]; exact Bool.false_ne_true)]
  by_cases h2 : st.postQ = true
  · rw [if_pos h2, if_neg (by decide), if_pos rfl]
  · rw [if_neg h2, if_neg (by simp), if_pos rfl]

/-- A newline steps the automaton to a finished row outside quotes. -/
theorem pStep_newline (st : PState) (h1 : st.inQ = false) : pStep st '\n' = pushRow st := by
  unfold pStep
  rw [if_neg (by rw [h1]; exact Bool.false_ne_true)]
  by_cases h2 : st.postQ = true
  · rw [if_pos h2, if_neg (by decide), if_neg (by decide), if_pos rfl]
  · rw [if_neg h2, if_neg (by simp), if_neg (by decide), if_pos rfl]

/-- Feeding ordinary characters accumulates them into the current field. -/
theorem foldl_plain (l : List Char) (hl : ∀ c ∈ l, specialChar c = false) :
    ∀ st : PState, st.inQ = false → st.postQ = false →
      l.foldl pStep st = { st with cur := l.reverse ++ st.cur } := by
  induction l with
  | nil => intro st h1 h2; rfl
  | cons c t ih =>
    intro st h1 h2
    have hc := hl c (by simp)
    have ht : ∀ x ∈ t, specialChar x = false := fun x hx => hl x (by simp [hx])
    simp only [specialChar, Bool.or_eq_false_iff, decide_eq_false_iff_not] at hc
    have hstep : pStep st c = { st with cur := c :: st.cur } := by
      unfold pStep
      rw [if_neg (by rw [h1]; exact Bool.false_ne_true),
        if_neg (by rw [h2]; exact Bool.false_ne_true),
        if_neg (by simp [hc.1.1.2]), if_neg hc.1.1.1, if_neg hc.1.2]
    rw [List.foldl_cons, hstep, ih ht { st with cur := c :: st.cur } h1 h2]
    simp [List.reverse_cons, List.append_assoc]

/-- Unfolding equation for dupQuotes on a cons. -/
theorem dupQuotes_cons (c : Char) (t : List Char) :
    dupQuotes (c :: t) = if c = '"' then c :: c :: dupQuotes t else c :: dupQuotes t := rfl

/-- Feeding a doubled-quote body plus the closing quote while inside quotes
accumulates the body and closes the quoted section. -/
theorem foldl_quoted (l : List Char) :
    ∀ st : PState, st.inQ = true →
      (dupQuotes l ++ ['"']).foldl pStep st =
        { st with cur := l.reverse ++ st.cur, inQ := false, postQ := true } := by
  induction l with
  | nil =>
    intro st h1
    simp only [dupQuotes, List.nil_append, List.foldl_cons, List.foldl_nil]
    rw [show pStep st '"' = { st with inQ := false, postQ := true } from by
      unfold pStep; rw [if_pos h1, if_pos rfl]]
    simp
  | cons c t ih =>
    intro st h1
    by_cases hq : c = '"'
    · subst hq
      rw [show dupQuotes ('"' :: t) = '"' :: '"' :: dupQuotes t from by
        rw [dupQuotes_cons, if_pos rfl]]
      simp only [List.cons_append, List.foldl_cons]
      rw [show pStep st '"' = { st with inQ := false, postQ := true } from by
        unfold pStep; rw [if_pos h1, if_pos rfl]]
      rw [show pStep { st with inQ := false, postQ := true } '"' =
          { st with cur := '"' :: st.cur, inQ := true, postQ := false } from by
        unfold pStep; rw [if_neg (by exact Bool.false_ne_true), if_pos rfl, if_pos rfl]]
      rw [ih { st with cur := '"' :: st.cur, inQ := true, postQ := false } rfl]
      simp [List.reverse_cons, List.append_assoc]
    · rw [show dupQuotes (c :: t) = c :: dupQuotes t from by
        rw [dupQuotes_cons, if_neg hq]]
      simp only [List.cons_append, List.foldl_cons]
      rw [show pStep st c = { st with cur := c :: st.cur } from by
        unfold pStep; rw [if_pos h1, if_neg hq]]
      rw [ih { st with cur := c :: st.cur } h1]
      simp [List.reverse_cons, List.append_assoc]

/-- Feeding one escaped field from a fresh-field state accumulates exactly
that field. -/
theorem foldl_field (l : List Char) (st : PState) (h1 : st.inQ = false)
    (h2 : st.postQ = false) (h3 : st.cur = []) :
    (escapeF l).foldl pStep st =
      { st with cur := l.reverse, inQ := false, postQ := l.any specialChar } := by
  obtain ⟨cur, row, acc, inQ, postQ⟩ := st
  obtain rfl : inQ = false := h1
  obtain rfl : postQ = false := h2
  obtain rfl : cur = [] := h3
  unfold escapeF
  by_cases hq : l.any specialChar = true
  · rw [if_pos hq, hq, List.foldl_cons]
    rw [show pStep ⟨[], row, acc, false, false⟩ '"' = ⟨[], row, acc, true, false⟩ from by
      unfold pStep; rw [if_neg (by exact Bool.false_ne_true),
        if_neg (by exact Bool.false_ne_true), if_pos (by rfl)]]
    rw [foldl_quoted l ⟨[], row, acc, true, false⟩ rfl]
    simp
  · have hq' : l.any specialChar = false := by
      revert hq; cases l.any specialChar <;> simp
    rw [if_neg hq, hq']
    rw [foldl_plain l
      (fun c hcm => Bool.eq_false_iff.mpr (List.any_eq_false.mp hq' c hcm))
      ⟨[], row, acc, false, false⟩ rfl rfl]
    simp

/-- joinWith on a singleton. -/
theorem joinWith_single (sep : Char) (x : List Char) : joinWith sep [x] = x := rfl

/-- joinWith on two or more chunks. -/
theorem joinWith_cons2 (sep : Char) (x y : List Char) (rest : List (List Char)) :
    joinWith sep (x :: y :: rest) = x ++ sep :: joinWith sep (y :: rest) := rfl

/-- Feeding one serialized line plus its newline finishes exactly that row. -/
theorem foldl_line : ∀ (fields : List (List Char)), fields ≠ [] →
    ∀ st : PState, st.inQ = false → st.postQ = false → st.cur = [] →
      (lineChars fields ++ ['\n']).foldl pStep st =
        { st with
            cur := [],
            row := [],
            acc := (fields.reverse ++ st.row).reverse :: st.acc,
            postQ := false } := by
  intro fields
  induction fields with
  | nil => intro hne; exact absurd rfl hne
  | cons f rest ih =>
    intro _ st h1 h2 h3
    obtain ⟨cur, row, acc, inQ, postQ⟩ := st
    obtain rfl : inQ = false := h1
    obtain rfl : postQ = false := h2
    obtain rfl : cur = [] := h3
    cases rest with
    | nil =>
      simp only [lineChars, List.map_cons, List.map_nil, joinWith_single]
      rw [List.foldl_append, foldl_field f ⟨[], row, acc, false, false⟩ rfl rfl rfl]
      simp only [List.foldl_cons, List.foldl_nil]
      rw [pStep_newline _ rfl]
      simp [pushRow]
    | cons f2 rest2 =>
      simp only [lineChars, List.map_cons, joinWith_cons2]
      rw [show (escapeF f ++ ',' :: joinWith ',' (escapeF f2 :: rest2.map escapeF)) ++ ['\n'] =
          escapeF f ++ ',' :: (joinWith ',' (escapeF f2 :: rest2.map escapeF) ++ ['\n']) from by
        simp [List.append_assoc]]
      rw [List.foldl_append, foldl_field f ⟨[], row, acc, false, false⟩ rfl rfl rfl]
      rw [List.foldl_cons, pStep_comma _ rfl]
      rw [show pushField ⟨f.reverse, row, acc, false, (f.any specialChar)⟩ =
          ⟨[], f.reverse.reverse :: row, acc, false, false⟩ from rfl]
      rw [List.reverse_reverse]
      have hrec := ih (by simp) ⟨[], f :: row, acc, false, false⟩ rfl rfl rfl
      rw [show lineChars (f2 :: rest2) =
          joinWith ',' (escapeF f2 :: rest2.map escapeF) from rfl] at hrec
      rw [hrec]
      simp [List.reverse_cons, List.append_assoc]

/-- Feeding a serialized table finishes exactly its rows. -/
theorem foldl_file : ∀ (table : List (List (List Char))), (∀ row ∈ table, row ≠ []) →
    ∀ st : PState, st.inQ = false → st.postQ = false → st.cur = [] → st.row = [] →
      (csvChars table).foldl pStep st = { st with acc := table.reverse ++ st.acc } := by
  intro table
  induction table with
  | nil =>
    intro _ st _ _ _ _
    simp [csvChars]
  | cons trow rest ih =>
    intro hne st h1 h2 h3 h4
    obtain ⟨cur, row, acc, inQ, postQ⟩ := st
    obtain rfl : inQ = false := h1
    obtain rfl : postQ = false := h2
    obtain rfl : cur = [] := h3
    obtain rfl : row = [] := h4
    simp only [csvChars]
    rw [show lineChars trow ++ '\n' :: csvChars rest =
        (lineChars trow ++ ['\n']) ++ csvChars rest from by simp [List.append_assoc]]
    rw [List.foldl_append,
      foldl_line trow (hne trow (by simp)) ⟨[], [], acc, false, false⟩ rfl rfl rfl]
    simp only [List.append_nil, List.reverse_reverse]
    rw [ih (fun r hr => hne r (by simp [hr])) ⟨[], [], trow :: acc, false, false⟩ rfl rfl rfl rfl]
    simp [List.reverse_cons, List.append_assoc]

/-- Parsing a serialized table recovers it, provided every row has at least
one field. -/
theorem csv_roundtrip_table (table : List (List (List Char)))
    (h : ∀ row ∈ table, row ≠ []) :
    csvParse ⟨csvChars table⟩ = some table := by
  have hf : (String.mk (csvChars table)).data.foldl pStep pInit =
      { pInit with acc := table.reverse ++ pInit.acc } :=
    foldl_file table h pInit rfl rfl rfl rfl
  simp only [csvParse]
  rw [hf]
  simp [pInit]

/-- The CSV document of a frame parses back to its header and rendered
rows, provided the frame has a column and well-formed rows. -/
theorem csvParse_toCsv (df : Df) (hcols : df.cols ≠ [])
    (harity : ∀ r ∈ df.rows, r.length = df.cols.length) :
    csvParse (toCsv df) = some (dfTable df) := by
  unfold toCsv
  apply csv_roundtrip_table
  intro row hrow
  simp only [dfTable, List.mem_cons, List.mem_map] at hrow
  rcases hrow with rfl | ⟨r, hr, rfl⟩
  · intro hmp
    exact hcols (List.map_eq_nil_iff.mp hmp)
  · intro hmp
    have hr0 : r = [] := List.map_eq_nil_iff.mp hmp
    have hlen := harity r hr
    rw [hr0] at hlen
    exact hcols (List.length_eq_zero.mp hlen.symm)

/-- C8 counterexample.  An absent cell and an empty-string cell produce the
same CSV text, so two different frames export identically and no parser can
recover the original frame from the document: the claimed lossless
round trip fails. -/
theorem to_csv_not_injective :
    toCsv dfAbsent = toCsv dfEmptyStr ∧ dfAbsent ≠ dfEmptyStr := by
  refine ⟨rfl, ?_⟩
  decide

/-- C8 as amended.  Parsing the exported CSV with a standard
comma-separated parser yields, column for column and row for row, the
header and the textual rendering of every cell (absent cells render
empty); the frame itself is not recovered in general because cells with
equal renderings collide in the export. -/
theorem csv_export_renders_cells_roundtrip (df : Df) (hcols : df.cols ≠ [])
    (harity : ∀ r ∈ df.rows, r.length = df.cols.length) :
    csvParse (toCsv df) = some (dfTable df) :=
  csvParse_toCsv df hcols harity

/-- Witness for C8 at a concrete frame. -/
theorem csv_export_renders_cells_roundtrip_witness :
    csvParse (toCsv dfa) = some (dfTable dfa) :=
  csv_export_renders_cells_roundtrip dfa (by decide) (by decide)

/-- Prefix extraction stops exactly at the first newline. -/
theorem takeWhile_append_newline (l rest : List Char) (hl : ∀ c ∈ l, c ≠ '\n') :
    (l ++ '\n' :: rest).takeWhile (fun c => c != '\n') = l := by
  induction l with
  | nil => simp
  | cons c t ih =>
    have hc : (c != '\n') = true := by
      simp [hl c (by simp)]
    simp only [List.cons_append, List.takeWhile_cons, hc, if_true]
    rw [ih (fun x hx => hl x (by simp [hx]))]

/-- A character of a joined line is the separator or from one chunk. -/
theorem mem_joinWith (sep : Char) : ∀ (ls : List (List Char)) (c : Char),
    c ∈ joinWith sep ls → c = sep ∨ ∃ l ∈ ls, c ∈ l := by
  intro ls
  induction ls with
  | nil => intro c hc; cases hc
  | cons x rest ih =>
    cases rest with
    | nil =>
      intro c hc
      exact Or.inr ⟨x, by simp, hc⟩
    | cons y r2 =>
      intro c hc
      rw [joinWith_cons2] at hc
      rcases List.mem_append.1 hc with hx | hrest
      · exact Or.inr ⟨x, by simp, hx⟩
      · rcases List.mem_cons.1 hrest with rfl | hj
        · exact Or.inl rfl
        · rcases ih c hj with hs | ⟨l, hli, hcl⟩
          · exact Or.inl hs
          · exact Or.inr ⟨l, by simp [hli], hcl⟩

/-- C7 counterexample.  On a frame whose stored column order is
[game_name, username], the exported CSV's header row is
"game_name,username", not the display priority order
(username first, hour columns inserted) that the claim requires. -/
theorem export_header_not_priority_order :
    headerLine (exportArtifact dfc7 (display_df dfc7 50 1)) = "game_name,username" ∧
      commaJoined (final_columns (formattedCols dfc7.cols)) = "username,game_name" ∧
      headerLine (exportArtifact dfc7 (display_df dfc7 50 1)) ≠
        commaJoined (final_columns (formattedCols dfc7.cols)) := by
  refine ⟨rfl, rfl, ?_⟩
  decide

/-- C7 as amended.  The CSV export serializes the filtered (not the
paginated) frame; its header row lists the frame's column names in their
stored order, joined by commas (the priority reordering and the derived
hour columns affect only the displayed table), and the document has one
line per surviving record after the header. -/
theorem export_filtered_with_original_header (df : Df) (P q : Nat) :
    exportArtifact df (display_df df P q) = toCsv df ∧
      ((∀ c ∈ df.cols, c.data.any specialChar = false) →
        headerLine (toCsv df) = commaJoined df.cols) ∧
      (df.cols ≠ [] → (∀ r ∈ df.rows, r.length = df.cols.length) →
        (csvParse (toCsv df)).map List.length = some (df.rows.length + 1)) := by
  refine ⟨rfl, ?_, ?_⟩
  · intro hplain
    have hmap : (df.cols.map String.data).map escapeF = df.cols.map String.data := by
      rw [List.map_map]
      apply List.map_congr_left
      intro c hc
      show escapeF c.data = c.data
      unfold escapeF
      rw [if_neg (by rw [hplain c hc]; exact Bool.false_ne_true)]
    have hline : lineChars (df.cols.map String.data) =
        joinWith ',' (df.cols.map String.data) := by
      unfold lineChars
      rw [hmap]
    unfold toCsv headerLine commaJoined
    rw [show (String.mk (csvChars (dfTable df))).data = csvChars (dfTable df) from rfl]
    rw [show csvChars (dfTable df) =
        lineChars (df.cols.map String.data) ++ '\n' ::
          csvChars (df.rows.map (fun r => r.map (fun c => (renderCell c).data))) from rfl]
    rw [hline]
    congr 1
    apply takeWhile_append_newline
    intro c hc
    rcases mem_joinWith ',' _ c hc with rfl | ⟨l, hli, hcl⟩
    · decide
    · obtain ⟨name, hname, rfl⟩ := List.mem_map.1 hli
      intro hceq
      subst hceq
      have hno := List.any_eq_false.mp (hplain name hname) '\n' hcl
      exact hno (by decide)
  · intro h1 h2
    rw [csvParse_toCsv df h1 h2]
    simp [dfTable]

/-- Witness for C7 at a concrete frame. -/
theorem export_filtered_with_original_header_witness :
    exportArtifact dfc7 (display_df dfc7 50 1) = toCsv dfc7 ∧
      headerLine (toCsv dfc7) = commaJoined dfc7.cols ∧
      (csvParse (toCsv dfc7)).map List.length = some (dfc7.rows.length + 1) :=
  ⟨(export_filtered_with_original_header dfc7 50 1).1,
   (export_filtered_with_original_header dfc7 50 1).2.1 (by decide),
   (export_filtered_with_original_header dfc7 50 1).2.2 (by decide) (by decide)⟩
